import Mathlib

/-!
# Verification of the Mood Streak analytics engine

Shallow embedding of the pure analytic helpers of `src/App.tsx`:
the streak calculators, the week comparator / trend classifier, the
30-day frequency analyzer, the heatmap grid builder and the month
label placer.

## Embedding conventions

* A JavaScript `Date` is embedded as the integer number of local
  calendar days since 1970-01-01 (`DateKey := ℤ`).  `getDateKey`
  formats a date as the canonical `YYYY-MM-DD` string; this is a
  bijection between calendar days and well-formed keys, so keys are
  embedded as the day numbers themselves.  Under this embedding:
  - `d.setDate(today.getDate() - i)` (calendar subtraction, as noted
    in the source) is `now - i`;
  - `Math.round((curr.getTime() - prev.getTime()) / 86_400_000)` for
    two local-midnight dates is exactly the day difference `curr - prev`
    (the rounding exists only to absorb DST offsets);
  - `date.getDay()` is `(n + 4) % 7` (1970-01-01 was a Thursday), with
    the mathematical (euclidean) remainder, as JS `getDay` is always
    in `0..6`;
  - `date.getMonth()` (0-based month) is computed by the standard
    civil-from-days calendar algorithm (`civilFromDays` below);
  - lexicographic sorting of zero-padded `YYYY-MM-DD` keys coincides
    with sorting the day numbers ascending.
* A JS object used as a map (`MoodData`) is embedded as an insertion
  ordered association list; the object spread `{...data, [k]: e}`
  keeps an existing key in place with the new value and appends a new
  key at the end (`setEntry` below).
* `Array.prototype.sort` is stable; the comparators used by the source
  are embedded as stable insertion sorts.
* JS numbers used for the averages and bar widths are embedded as `ℚ`.
-/

/-- A calendar day, as the number of local days since 1970-01-01.
Stands for both a JS `Date` (time-of-day is irrelevant to every
embedded computation) and its `YYYY-MM-DD` date-key. -/
abbrev DateKey := ℤ

/-- `interface MoodEntry` of `App.tsx`. -/
structure MoodEntry where
  emoji : String
  label : String
  color : String
  timestamp : String
deriving DecidableEq

/-- `interface MoodOption` of `App.tsx`. -/
structure MoodOption where
  emoji : String
  label : String
  color : String
deriving DecidableEq

/-- `interface MoodData` — the day-keyed history, embedded as an
insertion-ordered association list with (in every reachable state)
unique keys. -/
abbrev MoodData := List (DateKey × MoodEntry)

/-- The `MOODS` catalog constant (colors and emoji as in the source). -/
def MOODS : List MoodOption :=
  [ ⟨"😄", "Joyful",  "#FFD700"⟩
  , ⟨"😊", "Good",    "#86EFAC"⟩
  , ⟨"😐", "Neutral", "#9CA3AF"⟩
  , ⟨"😔", "Low",     "#93C5FD"⟩
  , ⟨"😢", "Sad",     "#60A5FA"⟩
  , ⟨"😡", "Angry",   "#EF4444"⟩
  , ⟨"😰", "Anxious", "#FB923C"⟩
  , ⟨"😴", "Tired",   "#A78BFA"⟩ ]

/-- The `POSITIVITY` record: score per label, `none` when absent. -/
def POSITIVITY (label : String) : Option ℚ :=
  if label = "Joyful" then some 8
  else if label = "Good" then some 7
  else if label = "Neutral" then some 5
  else if label = "Low" then some 4
  else if label = "Tired" then some 4
  else if label = "Anxious" then some 3
  else if label = "Sad" then some 2
  else if label = "Angry" then some 1
  else none

/-- Object property lookup `data[key]` on the history. -/
def lookupEntry (data : MoodData) (k : ℤ) : Option MoodEntry :=
  (data.find? (fun p => decide (p.1 = k))).map Prod.snd

/-- Truthiness test `if (data[key])` used by the loops of the source. -/
def hasEntry (data : MoodData) (k : ℤ) : Bool :=
  (lookupEntry data k).isSome

/-- Object spread `{...data, [k]: e}`: an existing key keeps its
position and receives the new value, a new key is appended. -/
def setEntry (data : MoodData) (k : ℤ) (e : MoodEntry) : MoodData :=
  if data.any (fun p => decide (p.1 = k)) then
    data.map (fun p => if p.1 = k then (k, e) else p)
  else
    data ++ [(k, e)]

/-- `handleMoodSelect` (App.tsx lines 270-282), restricted to its
data effect: build today's `MoodEntry` from the selected catalog
option and the current ISO timestamp, and store it under today's
key via the object spread. -/
def handleMoodSelect (data : MoodData) (today : ℤ) (mood : MoodOption)
    (ts : String) : MoodData :=
  setEntry data today ⟨mood.emoji, mood.label, mood.color, ts⟩

/-- `date.getDay()` for day number `n`: 1970-01-01 was a Thursday. -/
def todayDow (now : ℤ) : ℕ :=
  ((now + 4).emod 7).toNat

/-- The inner scanning loop of `computeCurrentStreak`
(App.tsx lines 113-121): starting at offset `i` with `fuel`
remaining iterations, count consecutive offsets whose key is
present, stopping at the first missing key. -/
def streakFrom (data : MoodData) (now : ℤ) : ℕ → ℕ → ℕ
  | _, 0 => 0
  | i, fuel + 1 =>
    if hasEntry data (now - i) then streakFrom data now (i + 1) fuel + 1 else 0

/-- The scan start of `computeCurrentStreak` (App.tsx line 111):
offset 0 when today is logged, else offset 1. -/
def startOffset (data : MoodData) (now : ℤ) : ℕ :=
  if hasEntry data now then 0 else 1

/-- `computeCurrentStreak` (App.tsx lines 107-123).  The loop
`for (i = startOffset; i < 365; i++)` performs at most
`365 - startOffset` iterations. -/
def computeCurrentStreak (data : MoodData) (now : ℤ) : ℕ :=
  streakFrom data now (startOffset data now) (365 - startOffset data now)

/-- Insertion step of the ascending key sort: `Object.keys(data).sort()`
sorts the fixed-width `YYYY-MM-DD` keys lexically, i.e. the day
numbers ascending. -/
def insertAsc (x : ℤ) : List ℤ → List ℤ
  | [] => [x]
  | y :: ys => if x ≤ y then x :: y :: ys else y :: insertAsc x ys

/-- Ascending sort of the history's keys. -/
def sortKeysAsc : List ℤ → List ℤ
  | [] => []
  | x :: xs => insertAsc x (sortKeysAsc xs)

/-- One step of the adjacent-pair scan of `computeBestStreak`
(App.tsx lines 130-142); the state is `(best, current, prevKey)` and
`diffDays` is the exact calendar-day difference of the two keys. -/
def bestStep (st : ℕ × ℕ × ℤ) (k : ℤ) : ℕ × ℕ × ℤ :=
  let best := st.1
  let current := st.2.1
  let prev := st.2.2
  if k - prev = 1 then
    (if best < current + 1 then current + 1 else best, current + 1, k)
  else
    (best, 1, k)

/-- `computeBestStreak` (App.tsx lines 125-146). -/
def computeBestStreak (data : MoodData) (now : ℤ) : ℕ :=
  match sortKeysAsc (data.map Prod.fst) with
  | [] => 0
  | k0 :: rest =>
    let st := rest.foldl bestStep (1, 1, k0)
    max st.1 (computeCurrentStreak data now)

/-- `getWeekEntries` (App.tsx lines 148-158): the entries of the 7
calendar days `startDaysAgo .. startDaysAgo + 6` before `now`, in
ascending-offset order, skipping absent days. -/
def getWeekEntries (data : MoodData) (now : ℤ) (startDaysAgo : ℕ) :
    List MoodEntry :=
  (List.range' startDaysAgo 7).filterMap (fun i => lookupEntry data (now - i))

/-- `avgPositivity` (App.tsx lines 160-163): mean positivity score of
the entries, scoring `POSITIVITY[label] ?? 5`, and `0` for no entries. -/
def avgPositivity (entries : List MoodEntry) : ℚ :=
  if entries.length = 0 then 0
  else (entries.foldl (fun sum e => sum + (POSITIVITY e.label).getD 5) 0)
        / entries.length

/-- The trend determination of the render pass (App.tsx lines 321-341),
identified by the icon it selects (each branch has a distinct icon). -/
def trendIcon (data : MoodData) (now : ℤ) : String :=
  let currentWeekEntries := getWeekEntries data now 0
  let prevWeekEntries := getWeekEntries data now 7
  let currentAvg := avgPositivity currentWeekEntries
  let prevAvg := avgPositivity prevWeekEntries
  if currentWeekEntries.length = 0 ∧ prevWeekEntries.length = 0 then "🌈"
  else if currentWeekEntries.length = 0 then "📝"
  else if prevWeekEntries.length = 0 then "✨"
  else if currentAvg > prevAvg + 0.5 then "📈"
  else if currentAvg < prevAvg - 0.5 then "📉"
  else "➡️"

/-- One ranked row of the 30-day frequency chart. -/
structure FreqEntry where
  mood : MoodOption
  count : ℕ
deriving DecidableEq

/-- The tally of `getFrequencyIn30Days` (App.tsx lines 186-193):
occurrences of label `l` among the entries of the 30 calendar days
ending at `now` inclusive. -/
def countLabel (data : MoodData) (now : ℤ) (l : String) : ℕ :=
  ((List.range 30).filterMap (fun i => lookupEntry data (now - i))).countP
    (fun e => decide (e.label = l))

/-- Insertion step of the stable descending count sort, modelling the
stable `Array.prototype.sort` with comparator `(a, b) => b.count - a.count`:
`x` is placed before the first element whose count does not exceed it,
so earlier elements with equal count stay ahead of later ones. -/
def insertDesc (x : FreqEntry) : List FreqEntry → List FreqEntry
  | [] => [x]
  | y :: ys => if y.count ≤ x.count then x :: y :: ys else y :: insertDesc x ys

/-- Stable descending-by-count sort. -/
def sortByCountDesc : List FreqEntry → List FreqEntry
  | [] => []
  | x :: xs => insertDesc x (sortByCountDesc xs)

/-- `getFrequencyIn30Days` (App.tsx lines 183-198): map the catalog in
its fixed order to `(mood, count)` rows, drop the zero counts, and
stably sort by count descending. -/
def getFrequencyIn30Days (data : MoodData) (now : ℤ) : List FreqEntry :=
  sortByCountDesc
    ((MOODS.map (fun m => FreqEntry.mk m (countLabel data now m.label))).filter
      (fun e => decide (0 < e.count)))

/-- `maxFreq` (App.tsx line 316): `frequency30.reduce((max, m) =>
Math.max(max, m.count), 1)`. -/
def maxFreq (data : MoodData) (now : ℤ) : ℕ :=
  (getFrequencyIn30Days data now).foldl (fun mx e => max mx e.count) 1

/-- The largest count of a frequency result (`0` when empty). -/
def largestCount (l : List FreqEntry) : ℕ :=
  l.foldl (fun mx e => max mx e.count) 0

/-- The bar width percentage of a frequency row (App.tsx line 585):
`Math.max((count / maxFreq) * 100, 10)`. -/
def barWidth (count mf : ℕ) : ℚ :=
  max ((count : ℚ) / (mf : ℚ) * 100) 10

/-- `interface HeatCell` of `App.tsx`. -/
structure HeatCell where
  dateKey : DateKey
  col : ℕ
  row : ℕ
deriving DecidableEq

/-- The body of the placement loop of `buildHeatmapCells`
(App.tsx lines 207-218) for offset `i`; the 7×12 array of optional
cells is embedded as a function of `(row, col)`. -/
def heatStep (now : ℤ) (dow : ℕ) (g : ℕ → ℕ → Option HeatCell)
    (i : ℕ) : ℕ → ℕ → Option HeatCell :=
  let pos : ℤ := (dow : ℤ) + 77 - (i : ℤ)
  if pos < 0 then g
  else
    let col := pos.toNat / 7
    let row := pos.toNat % 7
    if col < 12 ∧ row < 7 then
      fun r c => if r = row ∧ c = col then some ⟨now - (i : ℤ), col, row⟩ else g r c
    else g

/-- `buildHeatmapCells` (App.tsx lines 202-220), with
`DAYS_IN_HEATMAP = 84`. -/
def buildHeatmapCells (now : ℤ) : ℕ → ℕ → Option HeatCell :=
  (List.range 84).foldl (heatStep now (todayDow now)) (fun _ _ => none)

/-- A proleptic-Gregorian civil date. -/
structure CivilDate where
  year : ℤ
  month : ℕ
  day : ℕ
deriving DecidableEq

/-- The civil date of day number `z` (days since 1970-01-01), by the
standard civil-from-days algorithm; `month` is `1..12`. -/
def civilFromDays (z : ℤ) : CivilDate :=
  let zs := z + 719468
  let era := zs.fdiv 146097
  let doe := (zs - era * 146097).toNat
  let yoe := (doe - doe / 1460 + doe / 36524 - doe / 146096) / 365
  let doy := doe - (365 * yoe + yoe / 4 - yoe / 100)
  let mp := (5 * doy + 2) / 153
  let d := doy - (153 * mp + 2) / 5 + 1
  let m := if mp < 10 then mp + 3 else mp - 9
  ⟨era * 400 + yoe + (if m ≤ 2 then 1 else 0), m, d⟩

/-- `date.getMonth()` for day number `n`: the 0-based month `0..11`. -/
def jsMonth (n : ℤ) : ℕ :=
  (civilFromDays n).month - 1

/-- The short month names produced by
`toLocaleDateString('en-US', { month: 'short' })`, indexed by
`getMonth()`. -/
def MONTH_NAMES : List String :=
  ["Jan", "Feb", "Mar", "Apr", "May", "Jun",
   "Jul", "Aug", "Sep", "Oct", "Nov", "Dec"]

/-- Short name of 0-based month `m`. -/
def monthShort (m : ℕ) : String :=
  MONTH_NAMES.getD m ""

/-- The per-column body of `getMonthLabels` (App.tsx lines 227-241):
find the first row whose day lies inside the valid 84-day window
(the `continue`/`break` pattern of the source), and emit a label when
that day's month differs from the tracked `lastMonth` (initially `-1`).
The fold state is `(labels, lastMonth)`. -/
def monthStep (now : ℤ) (dow : ℕ) (st : List (String × ℕ) × ℤ)
    (col : ℕ) : List (String × ℕ) × ℤ :=
  match (List.range 7).find? (fun row =>
      decide (0 ≤ (dow : ℤ) + 77 - ((col : ℤ) * 7 + (row : ℤ))) &&
      decide ((dow : ℤ) + 77 - ((col : ℤ) * 7 + (row : ℤ)) < 84)) with
  | none => st
  | some row =>
    let daysAgo : ℤ := (dow : ℤ) + 77 - ((col : ℤ) * 7 + (row : ℤ))
    let m := jsMonth (now - daysAgo)
    if (m : ℤ) ≠ st.2 then (st.1 ++ [(monthShort m, col)], (m : ℤ)) else st

/-- `getMonthLabels` (App.tsx lines 222-243). -/
def getMonthLabels (now : ℤ) : List (String × ℕ) :=
  ((List.range 12).foldl (monthStep now (todayDow now)) ([], -1)).1

/-- The month shown by column `c` of the heatmap for instant `now`:
the month of the day of its first (and always valid) row 0, which is
`todayDow + 77 - 7 c` days ago. -/
def colMonth (now : ℤ) (c : ℕ) : ℕ :=
  jsMonth (now - ((todayDow now : ℤ) + 77 - (c : ℤ) * 7))

/-- The analytic results of one render pass of `App` (lines 307-318
and the mount-time `useState` initializers at lines 256-257).  Each
helper reads the wall clock itself (`new Date()` at App.tsx lines
108, 150, 184, 203, 223 and via `getTodayKey` at line 318), so the
pass is modelled against a clock oracle giving the day observed by
each successive read, in source order. -/
structure PassResults where
  currentStreak : ℕ
  bestStreak : ℕ
  currentWeekEntries : List MoodEntry
  prevWeekEntries : List MoodEntry
  frequency30 : List FreqEntry
  todayKey : DateKey
  grid : ℕ → ℕ → Option HeatCell
  monthLabels : List (String × ℕ)

/-- One analytic pass of the `App` component over `data`, with the
`n`-th wall-clock read returning the day `clock n`. -/
def appAnalyticsPass (data : MoodData) (clock : ℕ → ℤ) : PassResults :=
  { currentStreak := computeCurrentStreak data (clock 0)
  , bestStreak := computeBestStreak data (clock 1)
  , currentWeekEntries := getWeekEntries data (clock 2) 0
  , prevWeekEntries := getWeekEntries data (clock 3) 7
  , frequency30 := getFrequencyIn30Days data (clock 4)
  , todayKey := clock 5
  , grid := buildHeatmapCells (clock 6)
  , monthLabels := getMonthLabels (clock 7) }

/-! ## Basic lemmas about the history and the streak scan -/

theorem lookupEntry_nil (k : ℤ) : lookupEntry [] k = none := rfl

theorem hasEntry_nil (k : ℤ) : hasEntry [] k = false := rfl

theorem streakFrom_nil (now : ℤ) :
    ∀ fuel i, streakFrom [] now i fuel = 0 := by
  intro fuel i
  cases fuel with
  | zero => rfl
  | succ f => simp [streakFrom, hasEntry_nil]

theorem currentStreak_nil (now : ℤ) : computeCurrentStreak [] now = 0 := by
  simp [computeCurrentStreak, streakFrom_nil]

theorem streakFrom_le (data : MoodData) (now : ℤ) :
    ∀ fuel i, streakFrom data now i fuel ≤ fuel := by
  intro fuel
  induction fuel with
  | zero => intro i; simp [streakFrom]
  | succ f ih =>
    intro i
    simp only [streakFrom]
    split
    · exact Nat.succ_le_succ (ih (i + 1))
    · exact Nat.zero_le _

theorem streakFrom_present (data : MoodData) (now : ℤ) :
    ∀ fuel i j, j < streakFrom data now i fuel →
      hasEntry data (now - ((i + j : ℕ) : ℤ)) = true := by
  intro fuel
  induction fuel with
  | zero => intro i j hj; simp [streakFrom] at hj
  | succ f ih =>
    intro i j hj
    simp only [streakFrom] at hj
    by_cases h : hasEntry data (now - (i : ℤ)) = true
    · rw [if_pos h] at hj
      cases j with
      | zero => simpa using h
      | succ j' =>
        have hj' : j' < streakFrom data now (i + 1) f := by omega
        have := ih (i + 1) j' hj'
        rwa [show (i + 1) + j' = i + (j' + 1) from by omega] at this
    · rw [if_neg h] at hj
      omega

theorem streakFrom_stop (data : MoodData) (now : ℤ) :
    ∀ fuel i, streakFrom data now i fuel < fuel →
      hasEntry data (now - ((i + streakFrom data now i fuel : ℕ) : ℤ)) = false := by
  intro fuel
  induction fuel with
  | zero => intro i h; omega
  | succ f ih =>
    intro i h
    by_cases hp : hasEntry data (now - (i : ℤ)) = true
    · have hs : streakFrom data now i (f + 1)
          = streakFrom data now (i + 1) f + 1 := by
        simp [streakFrom, hp]
      rw [hs] at h ⊢
      have := ih (i + 1) (by omega)
      rwa [show (i + 1) + streakFrom data now (i + 1) f
          = i + (streakFrom data now (i + 1) f + 1) from by omega] at this
    · have hp' : hasEntry data (now - (i : ℤ)) = false := by
        simpa using hp
      have hs : streakFrom data now i (f + 1) = 0 := by
        simp [streakFrom, hp']
      rw [hs]
      simpa using hp'

theorem streakFrom_eq_zero_iff (data : MoodData) (now : ℤ)
    (fuel i : ℕ) (h : 0 < fuel) :
    (streakFrom data now i fuel = 0 ↔ hasEntry data (now - (i : ℤ)) = false) := by
  cases fuel with
  | zero => omega
  | succ f =>
    simp only [streakFrom]
    by_cases hp : hasEntry data (now - (i : ℤ)) = true
    · simp [hp]
    · simp [hp]

theorem streakFrom_congr (d1 d2 : MoodData) (now : ℤ) :
    ∀ fuel i, (∀ j : ℕ, hasEntry d1 (now - ((i + j : ℕ) : ℤ))
        = hasEntry d2 (now - ((i + j : ℕ) : ℤ))) →
      streakFrom d1 now i fuel = streakFrom d2 now i fuel := by
  intro fuel
  induction fuel with
  | zero => intro i _; rfl
  | succ f ih =>
    intro i hyp
    have h0 : hasEntry d1 (now - (i : ℤ)) = hasEntry d2 (now - (i : ℤ)) := by
      simpa using hyp 0
    have hrec : streakFrom d1 now (i + 1) f = streakFrom d2 now (i + 1) f := by
      apply ih
      intro j
      have := hyp (j + 1)
      rwa [show i + (j + 1) = (i + 1) + j from by omega] at this
    simp only [streakFrom, h0, hrec]

theorem startOffset_le_one (data : MoodData) (now : ℤ) :
    startOffset data now ≤ 1 := by
  unfold startOffset
  split <;> omega

theorem streakFrom_succ (data : MoodData) (now : ℤ) (i fuel : ℕ) :
    streakFrom data now i (fuel + 1)
      = if hasEntry data (now - (i : ℤ)) then streakFrom data now (i + 1) fuel + 1
        else 0 := rfl

/-! ## C1 — characterization of the current streak -/

/-- C1: for every history and instant `now`, `computeCurrentStreak`
equals the count of consecutive present date-keys scanned from offset
`startOffset` (0 when today is logged, 1 otherwise) up to the hard
cap of 365 days, stopping at the first missing key: every offset
below `start + streak` from `start` on is present, the offset
`start + streak` is missing unless the 365-day cap was reached, and
the streak is 0 exactly when the starting offset's key is missing. -/
theorem currentStreak_spec (data : MoodData) (now : ℤ) :
    (∀ j : ℕ, j < computeCurrentStreak data now →
        hasEntry data (now - ((startOffset data now + j : ℕ) : ℤ)) = true)
  ∧ (startOffset data now + computeCurrentStreak data now < 365 →
        hasEntry data
          (now - ((startOffset data now + computeCurrentStreak data now : ℕ) : ℤ))
          = false)
  ∧ startOffset data now + computeCurrentStreak data now ≤ 365
  ∧ (computeCurrentStreak data now = 0 ↔
        hasEntry data (now - ((startOffset data now : ℕ) : ℤ)) = false) := by
  have hso := startOffset_le_one data now
  unfold computeCurrentStreak
  refine ⟨?_, ?_, ?_, ?_⟩
  · intro j hj
    exact streakFrom_present data now _ _ j hj
  · intro h
    apply streakFrom_stop data now
    omega
  · have := streakFrom_le data now (365 - startOffset data now) (startOffset data now)
    omega
  · exact streakFrom_eq_zero_iff data now _ _ (by omega)

/-- A concrete two-day history used to witness the streak theorems:
2026-10-10 (day 20736) and 2026-10-09 (day 20735) are logged. -/
def c1Data : MoodData :=
  [ (20736, ⟨"😄", "Joyful", "#FFD700", "2026-10-10T09:00:00.000Z"⟩)
  , (20735, ⟨"😊", "Good", "#86EFAC", "2026-10-09T09:00:00.000Z"⟩) ]

/-- Witness for C1 at `now` = 2026-10-10 (day 20736): today is logged,
so the scan starts at offset 0 and its first scanned key is present. -/
theorem currentStreak_spec_witness :
    hasEntry c1Data (20736 - ((startOffset c1Data 20736 + 0 : ℕ) : ℤ)) = true :=
  (currentStreak_spec c1Data 20736).1 0 (by decide)

/-! ## Key sorting and the best-streak fold -/

theorem insertAsc_ne_nil (x : ℤ) (l : List ℤ) :
    insertAsc x l ≠ [] := by
  cases l with
  | nil => simp [insertAsc]
  | cons y ys =>
    simp only [insertAsc]
    split <;> simp

theorem sortKeysAsc_eq_nil_iff (l : List ℤ) :
    sortKeysAsc l = [] ↔ l = [] := by
  cases l with
  | nil => simp [sortKeysAsc]
  | cons x xs =>
    simp only [sortKeysAsc]
    constructor
    · intro h; exact absurd h (insertAsc_ne_nil _ _)
    · intro h; exact absurd h (by simp)

theorem bestFold_ge_one (l : List ℤ) :
    ∀ st : ℕ × ℕ × ℤ, 1 ≤ st.1 → 1 ≤ (l.foldl bestStep st).1 := by
  induction l with
  | nil => intro st h; simpa using h
  | cons k ks ih =>
    intro st h
    simp only [List.foldl_cons]
    apply ih
    simp only [bestStep]
    split
    · split <;> omega
    · simpa using h

/-! ## C3 — the best streak dominates the current streak -/

/-- C3: for every history and instant, the best streak is at least the
current streak: `computeBestStreak` either returns 0 on the empty
history (where the current streak is 0 too) or explicitly takes the
maximum of the raw scan and the current streak. -/
theorem bestStreak_ge_currentStreak (data : MoodData) (now : ℤ) :
    computeCurrentStreak data now ≤ computeBestStreak data now := by
  unfold computeBestStreak
  cases h : sortKeysAsc (data.map Prod.fst) with
  | nil =>
    have hdata : data = [] := by
      have := (sortKeysAsc_eq_nil_iff (data.map Prod.fst)).mp h
      simpa using this
    subst hdata
    simp [currentStreak_nil]
  | cons k0 rest =>
    exact Nat.le_max_right _ _

/-! ## C10 — the best streak is 0 exactly on the empty history -/

/-- C10: a non-empty history always yields a best streak of at least 1
(the running streak starts at 1 and the fold never lowers it below 1,
regardless of gaps or how far in the past the records lie), and the
best streak is 0 exactly for the empty history. -/
theorem bestStreak_eq_zero_iff (data : MoodData) (now : ℤ) :
    (data ≠ [] → 1 ≤ computeBestStreak data now)
  ∧ (computeBestStreak data now = 0 ↔ data = []) := by
  have hpos : data ≠ [] → 1 ≤ computeBestStreak data now := by
    intro hne
    unfold computeBestStreak
    cases h : sortKeysAsc (data.map Prod.fst) with
    | nil =>
      exact absurd (by simpa using (sortKeysAsc_eq_nil_iff _).mp h) hne
    | cons k0 rest =>
      have h1 : 1 ≤ (rest.foldl bestStep (1, 1, k0)).1 :=
        bestFold_ge_one rest (1, 1, k0) (by simp)
      exact le_trans h1 (Nat.le_max_left _ _)
  refine ⟨hpos, ?_, ?_⟩
  · intro h0
    by_contra hne
    have := hpos hne
    omega
  · intro h
    subst h
    rfl

/-- Witness for C10: the concrete two-day history is non-empty, so its
best streak is at least 1. -/
theorem bestStreak_eq_zero_iff_witness :
    1 ≤ computeBestStreak c1Data 20736 :=
  (bestStreak_eq_zero_iff c1Data 20736).1 (by decide)

/-! ## The effect of logging a mood (object spread update) -/

theorem find?_map_upd (k : ℤ) (e : MoodEntry) :
    ∀ data : MoodData, data.any (fun p => decide (p.1 = k)) = true →
      (data.map (fun p => if p.1 = k then (k, e) else p)).find?
          (fun p => decide (p.1 = k)) = some (k, e) := by
  intro data
  induction data with
  | nil => simp
  | cons p rest ih =>
    intro hany
    by_cases hp : p.1 = k
    · simp [List.find?_cons, hp]
    · have hrest : rest.any (fun p => decide (p.1 = k)) = true := by
        simp only [List.any_cons, Bool.or_eq_true, decide_eq_true_eq] at hany
        rcases hany with h | h
        · exact absurd h hp
        · exact h
      simp [List.find?_cons, hp, ih hrest]

theorem lookup_setEntry_self (data : MoodData) (k : ℤ) (e : MoodEntry) :
    lookupEntry (setEntry data k e) k = some e := by
  unfold setEntry
  by_cases hany : data.any (fun p => decide (p.1 = k)) = true
  · rw [if_pos hany]
    unfold lookupEntry
    rw [find?_map_upd k e data hany]
    rfl
  · rw [if_neg hany]
    unfold lookupEntry
    have hnone : data.find? (fun p => decide (p.1 = k)) = none := by
      rw [List.find?_eq_none]
      intro p hp
      simp only [decide_eq_true_eq]
      intro hpk
      exact hany (List.any_eq_true.mpr ⟨p, hp, by simpa using hpk⟩)
    induction data with
    | nil => simp
    | cons q rest ih =>
      have hq : (decide (q.1 = k)) = false := by
        simp only [List.find?_cons] at hnone
        rcases h : (decide (q.1 = k)) with _ | _
        · rfl
        · rw [h] at hnone; simp at hnone
      have hrest : rest.find? (fun p => decide (p.1 = k)) = none := by
        simp only [List.find?_cons, hq] at hnone
        exact hnone
      have hanyr : ¬rest.any (fun p => decide (p.1 = k)) = true := by
        intro hr
        rcases List.any_eq_true.mp hr with ⟨p, hp, hpk⟩
        rw [List.find?_eq_none] at hrest
        exact hrest p hp hpk
      simp only [List.cons_append, List.find?_cons, hq]
      exact ih hanyr hrest

theorem lookup_setEntry_other (data : MoodData) (k k' : ℤ)
    (e : MoodEntry) (h : k' ≠ k) :
    lookupEntry (setEntry data k e) k' = lookupEntry data k' := by
  unfold setEntry
  by_cases hany : data.any (fun p => decide (p.1 = k)) = true
  · rw [if_pos hany]
    unfold lookupEntry
    have : ∀ d : MoodData,
        (d.map (fun p => if p.1 = k then (k, e) else p)).find?
            (fun p => decide (p.1 = k'))
          = d.find? (fun p => decide (p.1 = k')) := by
      intro d
      induction d with
      | nil => simp
      | cons p rest ih =>
        by_cases hp : p.1 = k
        · have h1 : (decide ((k : ℤ) = k')) = false := by
            simp only [decide_eq_false_iff_not]
            exact fun hk => h hk.symm
          have h2 : (decide (p.1 = k')) = false := by
            simp only [decide_eq_false_iff_not]
            rw [hp]
            exact fun hk => h hk.symm
          simp [List.find?_cons, hp, h1, h2, ih]
        · simp only [List.map_cons, if_neg hp, List.find?_cons]
          rcases hq : (decide (p.1 = k')) with _ | _
          · simp [ih]
          · simp
    rw [this]
  · rw [if_neg hany]
    unfold lookupEntry
    have hk' : (decide ((k : ℤ) = k')) = false := by
      simp only [decide_eq_false_iff_not]
      exact fun hk => h hk.symm
    induction data with
    | nil => simp [List.find?_cons, hk']
    | cons q rest ih =>
      have hanyr : ¬rest.any (fun p => decide (p.1 = k)) = true := by
        intro hr
        apply hany
        simp only [List.any_cons, Bool.or_eq_true]
        exact Or.inr hr
      simp only [List.cons_append, List.find?_cons]
      rcases hq : (decide (q.1 = k')) with _ | _
      · simpa [hq] using ih hanyr
      · simp

theorem hasEntry_setEntry_self (data : MoodData) (k : ℤ) (e : MoodEntry) :
    hasEntry (setEntry data k e) k = true := by
  unfold hasEntry
  rw [lookup_setEntry_self]
  rfl

theorem hasEntry_setEntry_other (data : MoodData) (k k' : ℤ)
    (e : MoodEntry) (h : k' ≠ k) :
    hasEntry (setEntry data k e) k' = hasEntry data k' := by
  unfold hasEntry
  rw [lookup_setEntry_other data k k' e h]

theorem keys_setEntry_present (data : MoodData) (k : ℤ) (e : MoodEntry)
    (h : hasEntry data k = true) :
    (setEntry data k e).map Prod.fst = data.map Prod.fst := by
  have hany : data.any (fun p => decide (p.1 = k)) = true := by
    unfold hasEntry lookupEntry at h
    rw [Option.isSome_map'] at h
    rw [List.any_eq_true]
    rcases Option.isSome_iff_exists.mp h with ⟨p, hp⟩
    have hmem := List.mem_of_find?_eq_some hp
    have hpk := List.find?_some hp
    exact ⟨p, hmem, hpk⟩
  unfold setEntry
  rw [if_pos hany, List.map_map]
  apply List.map_congr_left
  intro p _
  by_cases hp : p.1 = k
  · simp [Function.comp, hp]
  · simp [Function.comp, hp]

/-! ## C2 — logging a mood for today -/

/-- C2: if today's key is absent, logging a mood for today raises the
current streak by exactly 1 and leaves the record at every other
date-key unchanged; if today's key is present, logging replaces
today's record with the freshly built entry and leaves the key list
(hence the number of keys) unchanged. -/
theorem handleMoodSelect_spec (data : MoodData) (now : ℤ)
    (mood : MoodOption) (ts : String) :
    (hasEntry data now = false →
        computeCurrentStreak (handleMoodSelect data now mood ts) now
          = computeCurrentStreak data now + 1
      ∧ ∀ k, k ≠ now →
          lookupEntry (handleMoodSelect data now mood ts) k = lookupEntry data k)
  ∧ (hasEntry data now = true →
        lookupEntry (handleMoodSelect data now mood ts) now
          = some ⟨mood.emoji, mood.label, mood.color, ts⟩
      ∧ (handleMoodSelect data now mood ts).map Prod.fst = data.map Prod.fst) := by
  constructor
  · intro habs
    have hframe : ∀ k, k ≠ now →
        lookupEntry (handleMoodSelect data now mood ts) k = lookupEntry data k := by
      intro k hk
      exact lookup_setEntry_other data now k _ hk
    refine ⟨?_, hframe⟩
    have hnew : hasEntry (handleMoodSelect data now mood ts) now = true :=
      hasEntry_setEntry_self data now _
    have hstart : startOffset (handleMoodSelect data now mood ts) now = 0 := by
      simp [startOffset, hnew]
    have hstart' : startOffset data now = 1 := by
      simp [startOffset, habs]
    have htail : streakFrom (handleMoodSelect data now mood ts) now 1 364
        = streakFrom data now 1 364 := by
      apply streakFrom_congr
      intro j
      unfold hasEntry
      rw [hframe (now - ((1 + j : ℕ) : ℤ)) (by simp [sub_eq_self]; omega)]
    rw [computeCurrentStreak, computeCurrentStreak, hstart, hstart']
    rw [show (365 : ℕ) - 0 = 364 + 1 from rfl]
    rw [show (365 : ℕ) - 1 = 364 from rfl]
    calc streakFrom (handleMoodSelect data now mood ts) now 0 (364 + 1)
        = streakFrom (handleMoodSelect data now mood ts) now 1 364 + 1 := by
          rw [streakFrom_succ]
          have hc : hasEntry (handleMoodSelect data now mood ts)
              (now - ((0 : ℕ) : ℤ)) = true := by simpa using hnew
          rw [if_pos hc]
      _ = streakFrom data now 1 364 + 1 := by rw [htail]
  · intro hpres
    exact ⟨lookup_setEntry_self data now _,
      keys_setEntry_present data now _ hpres⟩

/-- Witness for C2 at a history where 2026-10-09 is logged but
2026-10-10 (the `now` of the call) is not: logging raises the streak
by exactly 1. -/
theorem handleMoodSelect_spec_witness :
    computeCurrentStreak
        (handleMoodSelect [(20735, ⟨"😊", "Good", "#86EFAC", "t"⟩)] 20736
          ⟨"😄", "Joyful", "#FFD700"⟩ "ts") 20736
      = computeCurrentStreak [(20735, ⟨"😊", "Good", "#86EFAC", "t"⟩)] 20736 + 1 :=
  ((handleMoodSelect_spec [(20735, ⟨"😊", "Good", "#86EFAC", "t"⟩)] 20736
    ⟨"😄", "Joyful", "#FFD700"⟩ "ts").1 (by decide)).1

/-! ## C4 — the trend verdict -/

/-- C4: with `cw`/`pw` the records of the calendar days 0..6 and 7..13
before `now` and averages as computed by `avgPositivity` (catalog
score, default 5 for an unrecognized label, 0 for an empty week), the
trend verdict is the no-data prompt exactly when both weeks are
empty, the nothing-logged-this-week prompt exactly when only the
current week is empty, the insufficient-history prompt exactly when
only the previous week is empty, upward exactly when
`currentAvg > prevAvg + 0.5`, downward exactly when
`currentAvg < prevAvg - 0.5`, and steady in all remaining cases. -/
theorem trend_spec (data : MoodData) (now : ℤ) :
    avgPositivity [] = 0
  ∧ (trendIcon data now = "🌈" ↔
      getWeekEntries data now 0 = [] ∧ getWeekEntries data now 7 = [])
  ∧ (trendIcon data now = "📝" ↔
      getWeekEntries data now 0 = [] ∧ getWeekEntries data now 7 ≠ [])
  ∧ (trendIcon data now = "✨" ↔
      getWeekEntries data now 0 ≠ [] ∧ getWeekEntries data now 7 = [])
  ∧ (trendIcon data now = "📈" ↔
      getWeekEntries data now 0 ≠ [] ∧ getWeekEntries data now 7 ≠ []
      ∧ avgPositivity (getWeekEntries data now 7) + 0.5
          < avgPositivity (getWeekEntries data now 0))
  ∧ (trendIcon data now = "📉" ↔
      getWeekEntries data now 0 ≠ [] ∧ getWeekEntries data now 7 ≠ []
      ∧ avgPositivity (getWeekEntries data now 0)
          < avgPositivity (getWeekEntries data now 7) - 0.5)
  ∧ (trendIcon data now = "➡️" ↔
      getWeekEntries data now 0 ≠ [] ∧ getWeekEntries data now 7 ≠ []
      ∧ ¬(avgPositivity (getWeekEntries data now 7) + 0.5
            < avgPositivity (getWeekEntries data now 0))
      ∧ ¬(avgPositivity (getWeekEntries data now 0)
            < avgPositivity (getWeekEntries data now 7) - 0.5)) := by
  refine ⟨by simp [avgPositivity], ?_⟩
  unfold trendIcon
  simp only [List.length_eq_zero, gt_iff_lt]
  split_ifs with h1 h2 h3 h4 h5
  · obtain ⟨hc, hp⟩ := h1
    refine ⟨?_, ?_, ?_, ?_, ?_, ?_⟩ <;> simp [hc, hp]
  · have hp : getWeekEntries data now 7 ≠ [] := fun hp => h1 ⟨h2, hp⟩
    refine ⟨?_, ?_, ?_, ?_, ?_, ?_⟩ <;> simp [h2, hp]
  · refine ⟨?_, ?_, ?_, ?_, ?_, ?_⟩ <;> simp [h2, h3]
  · have h5' : ¬(avgPositivity (getWeekEntries data now 0)
        < avgPositivity (getWeekEntries data now 7) - 0.5) := by
      intro h
      have := lt_trans h (by linarith : avgPositivity (getWeekEntries data now 7)
        - 0.5 < avgPositivity (getWeekEntries data now 0))
      exact lt_irrefl _ this
    refine ⟨?_, ?_, ?_, ?_, ?_, ?_⟩ <;> simp [h2, h3, h4, h5']
  · refine ⟨?_, ?_, ?_, ?_, ?_, ?_⟩ <;> simp [h2, h3, h4, h5]
  · refine ⟨?_, ?_, ?_, ?_, ?_, ?_⟩ <;> simp [h2, h3, h4, h5]

/-! ## C6 — the 30-day frequency ranking -/

/-- Position of a mood in the catalog (first occurrence; `MOODS.length`
when absent). -/
def catalogIdx (m : MoodOption) : ℕ :=
  go MOODS
where
  go : List MoodOption → ℕ
    | [] => 0
    | x :: xs => if x = m then 0 else go xs + 1

/-- The ranking relation realized by the frequency result: strictly
larger count first, catalog order on equal counts. -/
def FreqRank (a b : FreqEntry) : Prop :=
  b.count < a.count ∨ (a.count = b.count ∧ catalogIdx a.mood < catalogIdx b.mood)

theorem mem_insertDesc (x a : FreqEntry) :
    ∀ l, a ∈ insertDesc x l ↔ a = x ∨ a ∈ l := by
  intro l
  induction l with
  | nil => simp [insertDesc]
  | cons y ys ih =>
    simp only [insertDesc]
    split
    · simp [or_comm, or_assoc, or_left_comm]
    · simp only [List.mem_cons, ih]
      tauto

theorem perm_insertDesc (x : FreqEntry) :
    ∀ l, (insertDesc x l).Perm (x :: l) := by
  intro l
  induction l with
  | nil => simp [insertDesc]
  | cons y ys ih =>
    simp only [insertDesc]
    split
    · exact List.Perm.refl _
    · exact ((ih.cons y).trans (List.Perm.swap x y ys))

theorem perm_sortByCountDesc :
    ∀ l : List FreqEntry, (sortByCountDesc l).Perm l := by
  intro l
  induction l with
  | nil => simp [sortByCountDesc]
  | cons x xs ih =>
    exact (perm_insertDesc x (sortByCountDesc xs)).trans (ih.cons x)

theorem pairwise_insertDesc (x : FreqEntry) :
    ∀ l, l.Pairwise FreqRank →
      (∀ b ∈ l, catalogIdx x.mood < catalogIdx b.mood) →
      (insertDesc x l).Pairwise FreqRank := by
  intro l
  induction l with
  | nil => intro _ _; simp [insertDesc, List.pairwise_singleton]
  | cons y ys ih =>
    intro hpw hidx
    rcases List.pairwise_cons.mp hpw with ⟨hy, hys⟩
    simp only [insertDesc]
    split
    · rename_i hcnt
      refine List.pairwise_cons.mpr ⟨?_, hpw⟩
      intro b hb
      rcases List.mem_cons.mp hb with rfl | hb
      · rcases Nat.lt_or_ge b.count x.count with h | h
        · exact Or.inl h
        · exact Or.inr ⟨Nat.le_antisymm h hcnt, hidx b (by simp)⟩
      · have hyb := hy b hb
        have hbcnt : b.count ≤ y.count := by
          rcases hyb with h | ⟨h, _⟩
          · omega
          · omega
        rcases Nat.lt_or_ge b.count x.count with h | h
        · exact Or.inl h
        · exact Or.inr ⟨by omega, hidx b (by simp [hb])⟩
    · rename_i hcnt
      refine List.pairwise_cons.mpr ⟨?_, ?_⟩
      · intro b hb
        rcases (mem_insertDesc x b ys).mp hb with rfl | hb
        · exact Or.inl (by omega)
        · exact hy b hb
      · exact ih hys (fun b hb => hidx b (by simp [hb]))

theorem pairwise_sortByCountDesc (S : FreqEntry → FreqEntry → Prop)
    (hS : ∀ a b, S a b → catalogIdx a.mood < catalogIdx b.mood) :
    ∀ l : List FreqEntry, l.Pairwise S →
      (sortByCountDesc l).Pairwise FreqRank := by
  intro l
  induction l with
  | nil => intro _; simp [sortByCountDesc]
  | cons x xs ih =>
    intro hpw
    rcases List.pairwise_cons.mp hpw with ⟨hx, hxs⟩
    apply pairwise_insertDesc x _ (ih hxs)
    intro b hb
    have hbmem : b ∈ xs := (perm_sortByCountDesc xs).mem_iff.mp hb
    exact hS x b (hx b hbmem)

/-- C6: the 30-day frequency result is a permutation of the catalog
mapped in order to `(mood, count)` rows with the zero counts dropped
(so an entry appears exactly when its label occurs in the window, and
never with count 0, and each entry carries its exact occurrence
count), and it is ranked by strictly descending count with ties in
catalog order (the stable sort on count only preserves the catalog
order of equal counts). -/
theorem frequency30_spec (data : MoodData) (now : ℤ) :
    (getFrequencyIn30Days data now).Perm
      ((MOODS.map (fun m => FreqEntry.mk m (countLabel data now m.label))).filter
        (fun e => decide (0 < e.count)))
  ∧ (∀ e ∈ getFrequencyIn30Days data now,
      0 < e.count ∧ e.mood ∈ MOODS ∧ e.count = countLabel data now e.mood.label)
  ∧ (getFrequencyIn30Days data now).Pairwise FreqRank := by
  have hperm : (getFrequencyIn30Days data now).Perm
      ((MOODS.map (fun m => FreqEntry.mk m (countLabel data now m.label))).filter
        (fun e => decide (0 < e.count))) :=
    perm_sortByCountDesc _
  refine ⟨hperm, ?_, ?_⟩
  · intro e he
    have hf := hperm.subset he
    rcases List.mem_filter.mp hf with ⟨hm, hc⟩
    rcases List.mem_map.mp hm with ⟨m, hmm, rfl⟩
    refine ⟨by simpa using hc, hmm, rfl⟩
  · apply pairwise_sortByCountDesc
      (fun a b => catalogIdx a.mood < catalogIdx b.mood) (fun a b h => h)
    apply List.Pairwise.filter
    have hcat : MOODS.Pairwise (fun a b => catalogIdx a < catalogIdx b) := by
      decide
    exact List.Pairwise.map _ (fun a b h => h) hcat

/-- Witness for C6: on the two-day history, Joyful appears ranked with
its exact count 1 inside the 30-day window ending 2026-10-10. -/
theorem frequency30_spec_witness :
    0 < (FreqEntry.mk ⟨"😄", "Joyful", "#FFD700"⟩ 1).count
    ∧ (FreqEntry.mk ⟨"😄", "Joyful", "#FFD700"⟩ 1).mood ∈ MOODS
    ∧ (FreqEntry.mk ⟨"😄", "Joyful", "#FFD700"⟩ 1).count
        = countLabel c1Data 20736 (FreqEntry.mk ⟨"😄", "Joyful", "#FFD700"⟩ 1).mood.label :=
  (frequency30_spec c1Data 20736).2.1 ⟨⟨"😄", "Joyful", "#FFD700"⟩, 1⟩ (by decide)

/-! ## C8 — bar widths of the frequency chart -/

theorem foldl_maxCount_init (l : List FreqEntry) :
    ∀ a : ℕ, l.foldl (fun mx e => max mx e.count) a = max a (largestCount l) := by
  induction l with
  | nil => intro a; simp [largestCount]
  | cons x xs ih =>
    intro a
    have hx : largestCount (x :: xs) = max x.count (largestCount xs) := by
      show xs.foldl (fun mx e => max mx e.count) (max 0 x.count)
          = max x.count (largestCount xs)
      rw [ih]
      omega
    simp only [List.foldl_cons, hx, ih (max a x.count)]
    omega

theorem count_le_largestCount (l : List FreqEntry) :
    ∀ e ∈ l, e.count ≤ largestCount l := by
  induction l with
  | nil => simp
  | cons x xs ih =>
    intro e he
    have hx : largestCount (x :: xs) = max x.count (largestCount xs) := by
      show xs.foldl (fun mx e => max mx e.count) (max 0 x.count)
          = max x.count (largestCount xs)
      rw [foldl_maxCount_init]
      omega
    rcases List.mem_cons.mp he with rfl | he
    · omega
    · have := ih e he
      omega

/-- A 30-day window ending 2026-10-10 (day 20736) holding 10 Joyful
records (offsets 0-9) and 3 Good records (offsets 10-12). -/
def c8Data : MoodData :=
  [ (20736, ⟨"😄", "Joyful", "#FFD700", "t"⟩)
  , (20735, ⟨"😄", "Joyful", "#FFD700", "t"⟩)
  , (20734, ⟨"😄", "Joyful", "#FFD700", "t"⟩)
  , (20733, ⟨"😄", "Joyful", "#FFD700", "t"⟩)
  , (20732, ⟨"😄", "Joyful", "#FFD700", "t"⟩)
  , (20731, ⟨"😄", "Joyful", "#FFD700", "t"⟩)
  , (20730, ⟨"😄", "Joyful", "#FFD700", "t"⟩)
  , (20729, ⟨"😄", "Joyful", "#FFD700", "t"⟩)
  , (20728, ⟨"😄", "Joyful", "#FFD700", "t"⟩)
  , (20727, ⟨"😄", "Joyful", "#FFD700", "t"⟩)
  , (20726, ⟨"😊", "Good", "#86EFAC", "t"⟩)
  , (20725, ⟨"😊", "Good", "#86EFAC", "t"⟩)
  , (20724, ⟨"😊", "Good", "#86EFAC", "t"⟩) ]

/-- C8: `maxFreq` is the largest count of the frequency result taken
with a minimum of 1, every entry's count is bounded by it, and the
bar width of each row is `max (count / maxFreq * 100) 10` percent —
on the concrete 10-Joyful / 3-Good window the ranked counts are 10
and 3 and the rendered widths are exactly 100% and 30%. -/
theorem barWidth_spec (data : MoodData) (now : ℤ) :
    maxFreq data now = max (largestCount (getFrequencyIn30Days data now)) 1
  ∧ (∀ e ∈ getFrequencyIn30Days data now, e.count ≤ maxFreq data now)
  ∧ (getFrequencyIn30Days c8Data 20736).map (fun e => (e.mood.label, e.count))
      = [("Joyful", 10), ("Good", 3)]
  ∧ (getFrequencyIn30Days c8Data 20736).map
      (fun e => barWidth e.count (maxFreq c8Data 20736)) = [100, 30] := by
  have hmax : maxFreq data now
      = max (largestCount (getFrequencyIn30Days data now)) 1 := by
    show (getFrequencyIn30Days data now).foldl (fun mx e => max mx e.count) 1 = _
    rw [foldl_maxCount_init]
    omega
  have hlist : getFrequencyIn30Days c8Data 20736
      = [⟨⟨"😄", "Joyful", "#FFD700"⟩, 10⟩, ⟨⟨"😊", "Good", "#86EFAC"⟩, 3⟩] := by
    decide
  have hmf : maxFreq c8Data 20736 = 10 := by decide
  refine ⟨hmax, ?_, by rw [hlist]; rfl, ?_⟩
  · intro e he
    have := count_le_largestCount (getFrequencyIn30Days data now) e he
    omega
  · rw [hlist, hmf]
    simp only [List.map_cons, List.map_nil, barWidth]
    norm_num

/-- Witness for C8: the top row of the concrete window (Joyful, count
10) is bounded by `maxFreq`. -/
theorem barWidth_spec_witness :
    (FreqEntry.mk ⟨"😄", "Joyful", "#FFD700"⟩ 10).count ≤ maxFreq c8Data 20736 :=
  (barWidth_spec c8Data 20736).2.1 ⟨⟨"😄", "Joyful", "#FFD700"⟩, 10⟩ (by decide)

/-! ## C7 — the heatmap grid -/

theorem todayDow_lt (now : ℤ) : todayDow now < 7 := by
  unfold todayDow
  have h1 : 0 ≤ (now + 4).emod 7 := Int.emod_nonneg _ (by norm_num)
  have h2 : (now + 4).emod 7 < 7 := Int.emod_lt_of_pos _ (by norm_num)
  omega

theorem heatFold (now : ℤ) (dow : ℕ) (hdow : dow < 7) :
    ∀ (n r c : ℕ), r < 7 → c < 12 →
      ((List.range n).foldl (heatStep now dow) (fun _ _ => none)) r c
        = if 7 * c + r ≤ dow + 77 ∧ dow + 77 - (7 * c + r) < n
          then some ⟨now - ((dow + 77 - (7 * c + r) : ℕ) : ℤ), c, r⟩
          else none := by
  intro n
  induction n with
  | zero =>
    intro r c hr hc
    simp
  | succ n ih =>
    intro r c hr hc
    rw [List.range_succ, List.foldl_append, List.foldl_cons, List.foldl_nil]
    set g := (List.range n).foldl (heatStep now dow) (fun _ _ => none) with hg
    by_cases hpos : (dow : ℤ) + 77 - (n : ℤ) < 0
    · have hstep : heatStep now dow g n = g := by
        simp only [heatStep]
        rw [if_pos hpos]
      rw [hstep, ih r c hr hc]
      by_cases hle : 7 * c + r ≤ dow + 77
      · have hiff : (dow + 77 - (7 * c + r) < n)
            ↔ (dow + 77 - (7 * c + r) < n + 1) := by omega
        simp only [hle, true_and, hiff]
      · simp [hle]
    · have hnn : (0 : ℤ) ≤ (dow : ℤ) + 77 - (n : ℤ) := by omega
      have hn : n ≤ dow + 77 := by omega
      have hptoNat : ((dow : ℤ) + 77 - (n : ℤ)).toNat = dow + 77 - n := by omega
      have hcol : (dow + 77 - n) / 7 < 12 := by omega
      have hrow : (dow + 77 - n) % 7 < 7 := by omega
      have hstep : heatStep now dow g n r c
          = if r = (dow + 77 - n) % 7 ∧ c = (dow + 77 - n) / 7
            then some ⟨now - (n : ℤ), (dow + 77 - n) / 7, (dow + 77 - n) % 7⟩
            else g r c := by
        simp only [heatStep]
        rw [if_neg (not_lt.mpr hnn), hptoNat, if_pos ⟨hcol, hrow⟩]
      by_cases heq : r = (dow + 77 - n) % 7 ∧ c = (dow + 77 - n) / 7
      · rw [hstep, if_pos heq]
        obtain ⟨h1, h2⟩ := heq
        rw [if_pos ⟨by omega, by omega⟩]
        have harg : dow + 77 - (7 * c + r) = n := by omega
        rw [harg, h1, h2]
      · rw [hstep, if_neg heq, ih r c hr hc]
        by_cases hle : 7 * c + r ≤ dow + 77
        · have hne : dow + 77 - (7 * c + r) ≠ n := by
            intro h
            exact heq ⟨by omega, by omega⟩
          have hiff : (dow + 77 - (7 * c + r) < n)
              ↔ (dow + 77 - (7 * c + r) < n + 1) := by omega
          simp only [hle, true_and, hiff]
        · simp [hle]

theorem heatFold_outside (now : ℤ) (dow : ℕ) :
    ∀ (n r c : ℕ), 7 ≤ r ∨ 12 ≤ c →
      ((List.range n).foldl (heatStep now dow) (fun _ _ => none)) r c = none := by
  intro n
  induction n with
  | zero => intro r c _; simp
  | succ n ih =>
    intro r c hout
    rw [List.range_succ, List.foldl_append, List.foldl_cons, List.foldl_nil]
    set g := (List.range n).foldl (heatStep now dow) (fun _ _ => none) with hg
    simp only [heatStep]
    split
    · exact ih r c hout
    · split
      · rename_i hguard
        have : ¬(r = ((dow : ℤ) + 77 - (n : ℤ)).toNat % 7
            ∧ c = ((dow : ℤ) + 77 - (n : ℤ)).toNat / 7) := by
          rintro ⟨rfl, rfl⟩
          rcases hout with h | h <;> omega
        exact (if_neg this).trans (ih r c hout)
      · exact ih r c hout

/-- C7: the heatmap places the day `i` days ago (for `i < 84` with
`pos = todayDow + 77 - i ≥ 0`) at `row = pos % 7`, `col = pos / 7`
with that day's date-key: reading the finished grid at any in-range
`(row, col)` yields exactly the cell of the unique such offset (and
nothing at positions no offset reaches); distinct valid offsets give
distinct `(row, col)` pairs, so no cell is ever overwritten; every
out-of-range position is empty (placed cells always satisfy
`col < 12` and `row < 7`); and offset 0 (today) lands in column 11 at
`row = todayDow`. -/
theorem heatmap_spec (now : ℤ) :
    (∀ r c : ℕ, r < 7 → c < 12 →
        buildHeatmapCells now r c
          = if 7 * c + r ≤ todayDow now + 77
            then some ⟨now - ((todayDow now + 77 - (7 * c + r) : ℕ) : ℤ), c, r⟩
            else none)
  ∧ (∀ i j : ℕ, i < 84 → j < 84 → i ≤ todayDow now + 77 →
        j ≤ todayDow now + 77 → i ≠ j →
        ((todayDow now + 77 - i) % 7, (todayDow now + 77 - i) / 7)
          ≠ ((todayDow now + 77 - j) % 7, (todayDow now + 77 - j) / 7))
  ∧ (∀ r c : ℕ, 7 ≤ r ∨ 12 ≤ c → buildHeatmapCells now r c = none)
  ∧ buildHeatmapCells now (todayDow now) 11 = some ⟨now, 11, todayDow now⟩ := by
  have hdow := todayDow_lt now
  refine ⟨?_, ?_, ?_, ?_⟩
  · intro r c hr hc
    unfold buildHeatmapCells
    rw [heatFold now (todayDow now) hdow 84 r c hr hc]
    by_cases hle : 7 * c + r ≤ todayDow now + 77
    · rw [if_pos ⟨hle, by omega⟩, if_pos hle]
    · rw [if_neg (fun h => hle h.1), if_neg hle]
  · intro i j hi hj hi' hj' hne heq
    have h1 := congrArg Prod.fst heq
    have h2 := congrArg Prod.snd heq
    simp only [] at h1 h2
    exact hne (by omega)
  · intro r c hout
    unfold buildHeatmapCells
    exact heatFold_outside now (todayDow now) 84 r c hout
  · unfold buildHeatmapCells
    rw [heatFold now (todayDow now) hdow 84 (todayDow now) 11 hdow (by norm_num)]
    rw [if_pos ⟨by omega, by omega⟩]
    have harg : todayDow now + 77 - (7 * 11 + todayDow now) = 0 := by omega
    rw [harg]
    simp

/-- Witness for C7 at `now` = 2026-10-11 (day 20737): the grid read at
row 0, column 11 is today's cell, via the placement characterization. -/
theorem heatmap_spec_witness :
    buildHeatmapCells 20737 0 11
      = if 7 * 11 + 0 ≤ todayDow 20737 + 77
        then some ⟨20737 - ((todayDow 20737 + 77 - (7 * 11 + 0) : ℕ) : ℤ), 11, 0⟩
        else none :=
  (heatmap_spec 20737).1 0 11 (by decide) (by decide)

/-! ## C9 — the month labels -/

theorem find_first_row (dow col : ℕ) (hdow : dow < 7) (hcol : col < 12) :
    (List.range 7).find? (fun row =>
        decide (0 ≤ (dow : ℤ) + 77 - ((col : ℤ) * 7 + (row : ℤ))) &&
        decide ((dow : ℤ) + 77 - ((col : ℤ) * 7 + (row : ℤ)) < 84))
      = some 0 := by
  have h0 : (fun row : ℕ =>
      decide (0 ≤ (dow : ℤ) + 77 - ((col : ℤ) * 7 + (row : ℤ))) &&
      decide ((dow : ℤ) + 77 - ((col : ℤ) * 7 + (row : ℤ)) < 84)) 0 = true := by
    rw [Bool.and_eq_true, decide_eq_true_eq, decide_eq_true_eq]
    constructor
    · push_cast
      omega
    · push_cast
      omega
  rw [show List.range 7 = 0 :: [1, 2, 3, 4, 5, 6] from rfl]
  exact List.find?_cons_of_pos _ h0

theorem monthStep_char (now : ℤ) (st : List (String × ℕ) × ℤ) (col : ℕ)
    (hcol : col < 12) :
    monthStep now (todayDow now) st col
      = if (colMonth now col : ℤ) ≠ st.2
        then (st.1 ++ [(monthShort (colMonth now col), col)], (colMonth now col : ℤ))
        else st := by
  have hdow := todayDow_lt now
  unfold monthStep
  rw [find_first_row (todayDow now) col hdow hcol]
  simp [colMonth]

theorem monthFold (now : ℤ) :
    ∀ k, k ≤ 12 →
      (List.range k).foldl (monthStep now (todayDow now)) ([], -1)
        = ((List.range k).filterMap (fun c =>
              if c = 0 ∨ colMonth now c ≠ colMonth now (c - 1)
              then some (monthShort (colMonth now c), c) else none),
           if k = 0 then (-1 : ℤ) else (colMonth now (k - 1) : ℤ)) := by
  intro k
  induction k with
  | zero => intro _; simp
  | succ k ih =>
    intro hk
    rw [List.range_succ, List.foldl_append, List.foldl_cons, List.foldl_nil,
        List.filterMap_append, ih (by omega), monthStep_char now _ k (by omega)]
    rcases Nat.eq_zero_or_pos k with rfl | hkpos
    · rw [if_pos (by omega)]
      simp
    · have hlast : (if k = 0 then (-1 : ℤ) else (colMonth now (k - 1) : ℤ))
          = (colMonth now (k - 1) : ℤ) := by
        rw [if_neg (by omega)]
      rw [hlast]
      by_cases hmon : colMonth now k = colMonth now (k - 1)
      · rw [if_neg (by simpa using hmon)]
        have hfm : (List.filterMap (fun c =>
            if c = 0 ∨ colMonth now c ≠ colMonth now (c - 1)
            then some (monthShort (colMonth now c), c) else none) [k]) = [] := by
          simp only [List.filterMap_cons, List.filterMap_nil]
          rw [if_neg (by push_neg; exact ⟨by omega, by simpa using hmon⟩)]
        rw [hfm]
        simp [hmon]
      · rw [if_pos (by simpa using hmon)]
        have hfm : (List.filterMap (fun c =>
            if c = 0 ∨ colMonth now c ≠ colMonth now (c - 1)
            then some (monthShort (colMonth now c), c) else none) [k])
            = [(monthShort (colMonth now k), k)] := by
          simp only [List.filterMap_cons, List.filterMap_nil]
          rw [if_pos (Or.inr hmon)]
        rw [hfm]
        simp

/-- Check that the months shown by the 12 columns form contiguous
runs: whenever two columns show the same month, every column between
them shows it too. -/
def monthsContiguous (now : ℤ) : Bool :=
  (List.range 12).all fun c1 =>
    (List.range 12).all fun c2 =>
      (List.range 12).all fun c3 =>
        !(decide (c1 ≤ c2) && decide (c2 ≤ c3)
            && decide (colMonth now c1 = colMonth now c3))
          || decide (colMonth now c2 = colMonth now c3)

/-- C9: the month-label placer emits, scanning columns left to right
(each column contributing the month of the first row whose day lies
in the valid 84-day window), a `(short month name, col)` pair exactly
at column 0 and at every column whose month differs from the previous
column's month — equivalently, exactly when the month differs from
the most recently emitted one, since the tracked last-emitted month
always equals the previous column's month; consequently, whenever
each month occupies a contiguous run of columns, every emitted label
sits at the first column showing its month. -/
theorem monthLabels_spec (now : ℤ) :
    getMonthLabels now
      = (List.range 12).filterMap (fun c =>
          if c = 0 ∨ colMonth now c ≠ colMonth now (c - 1)
          then some (monthShort (colMonth now c), c) else none)
  ∧ ∀ l c, (l, c) ∈ getMonthLabels now → monthsContiguous now = true →
      ∀ c', c' < c → colMonth now c' ≠ colMonth now c := by
  have heq : getMonthLabels now
      = (List.range 12).filterMap (fun c =>
          if c = 0 ∨ colMonth now c ≠ colMonth now (c - 1)
          then some (monthShort (colMonth now c), c) else none) := by
    unfold getMonthLabels
    rw [monthFold now 12 (by norm_num)]
  refine ⟨heq, ?_⟩
  intro l c hmem hcont c' hc' habs
  rw [heq] at hmem
  rcases List.mem_filterMap.mp hmem with ⟨cc, hccmem, hf⟩
  have hcc12 : cc < 12 := List.mem_range.mp hccmem
  by_cases hcond : cc = 0 ∨ colMonth now cc ≠ colMonth now (cc - 1)
  · rw [if_pos hcond] at hf
    simp only [Option.some.injEq, Prod.mk.injEq] at hf
    obtain ⟨-, hc⟩ := hf
    subst hc
    rcases hcond with h0 | hne
    · omega
    · have h1 := List.all_eq_true.mp hcont c' (List.mem_range.mpr (by omega))
      have h2 := List.all_eq_true.mp h1 (cc - 1) (List.mem_range.mpr (by omega))
      have h3 := List.all_eq_true.mp h2 cc (List.mem_range.mpr (by omega))
      rcases Bool.or_eq_true _ _ |>.mp h3 with hneg | hpos
      · simp only [Bool.not_eq_true', Bool.and_eq_false_iff,
          decide_eq_false_iff_not] at hneg
        rcases hneg with (h | h) | h
        · exact h (by omega)
        · exact h (by omega)
        · exact h habs
      · exact hne (of_decide_eq_true hpos).symm
  · rw [if_neg hcond] at hf
    simp at hf

/-- Witness for C9 at `now` = 2026-10-11 (day 20737): the emitted pair
`("Aug", 1)` sits at the first column whose Sunday falls in August
(the window's months are contiguous across columns there). -/
theorem monthLabels_spec_witness :
    ∀ c', c' < 1 → colMonth 20737 c' ≠ colMonth 20737 1 :=
  (monthLabels_spec 20737).2 "Aug" 1 (by decide) (by decide)

/-! ## C5 — one wall-clock read per helper, not one per pass -/

/-- A wall clock that crosses midnight from 2026-10-10 (day 20736) to
2026-10-11 (day 20737) after the fifth read of a pass: the streak,
best-streak, week and frequency computations observe the old day,
while the today-key, grid and month-label computations observe the
new one. -/
def c5Clock : ℕ → ℤ :=
  fun n => if 5 ≤ n then 20737 else 20736

/-- A history holding exactly one record, for 2026-10-11 (day 20737). -/
def c5Data : MoodData :=
  [(20737, ⟨"😄", "Joyful", "#FFD700", "2026-10-11T00:00:05.000Z"⟩)]

/-- C5 fails on the code: each analytic helper performs its own
`new Date()` (App.tsx lines 108, 150, 184, 203, 223), so a pass whose
clock crosses midnight mid-way reports a current streak of 0 (its
read of "today" precedes the sole record) while the very same pass
builds a grid whose column-11 today cell is the recorded day — and a
pass that agreed on the later instant throughout would report a
streak of 1.  The computations of one pass do not all agree on what
"today" is, contradicting the required once-per-pass `now`. -/
theorem analyticsPass_clock_divergence :
    (appAnalyticsPass c5Data c5Clock).currentStreak = 0
  ∧ (appAnalyticsPass c5Data c5Clock).todayKey = 20737
  ∧ (appAnalyticsPass c5Data c5Clock).grid (todayDow 20737) 11
      = some ⟨20737, 11, todayDow 20737⟩
  ∧ hasEntry c5Data 20737 = true
  ∧ (appAnalyticsPass c5Data (fun _ => 20737)).currentStreak = 1 := by
  refine ⟨by decide, by decide, by decide, by decide, by decide⟩
